import Mathlib

/-!
Verification of the StreamFramework composable-effects core.

This file gives a shallow embedding in Lean 4 of the three concrete
monadic types of the repository and of the bounded-parallel extension:

* `SF.Either`  embeds `src/core/either.py` (class `Either`): a tagged
  success/failure container.  Python code called from `bind` may raise;
  we model a possibly-raising Python computation as a value of
  `Except χ _` at the meta level, so `bind` receives `f : α → Except χ _`
  and propagates a raised `χ` unchanged, while `map` receives
  `f : α → Except ε _` and stores a raised exception in the left slot,
  exactly as the `try/except` in the source does.

* `SF.Eff` embeds `src/core/io_monad.py` (class `IO`): a deferred effect
  wrapping a zero-argument closure.  A Python closure is impure, so it is
  modelled as a state transformer `σ → Except ε α × σ`: given the world
  state it either returns a value or raises an exception of type `ε`,
  and in both cases leaves a new world state (side effects happen even on
  a raising run).  `run` applies the closure to the world.  Counting how
  often a closure is invoked is done by taking `σ := Nat` and a closure
  that bumps the counter on every call (`SF.mkClosure`).

* `SF.Stream` embeds `src/core/stream.py` (class `Stream`) restricted to
  finite sources: a Python `Stream` holds a factory of iterators, and a
  finite iterator is fully described by the list of elements it yields,
  so the model carries that list.  Each combinator body is the direct
  translation of the corresponding generator.

* `SF.Iter` is the general iterator model used for the laziness claim
  about the unbounded `Stream.range(0)`: an iterator is a state machine
  whose `step` either yields the next element with the successor state or
  signals exhaustion.  `itertools.count`, the counting variant of `map`,
  `itertools.islice` and `list(...)` (with fuel, since a pull on a Python
  iterator need not terminate) are translated on top of it.

* `SF.HttpRequest`, `SF.Heap` and `SF.HttpStream` embed the parts of
  `src/core/http_stream.py` the claims need.  Python dataclass instances
  are heap objects mutable in place, so a request is addressed by a `Nat`
  reference into an explicit heap, and the closure `add_headers` inside
  `with_headers` — which assigns `request.headers = new_headers` — is a
  function on that heap.  Traversing a mapped stream threads the heap
  through the per-element closure calls.

* `SF.execute_parallel` embeds `HttpStream.execute_parallel`: the
  thread pool completes the submitted futures in a nondeterministic
  order, and `as_completed` yields every future exactly once, so the
  model takes the completion order as an explicit enumeration of the
  submitted indices.
-/

namespace SF

/-- Embedding of `Either` from `src/core/either.py`: the pair of the
stored `_value` and the `_is_right` tag is rendered as a two-constructor
inductive. -/
inductive Either (ε α : Type) where
  | left  (e : ε) : Either ε α
  | right (a : α) : Either ε α
deriving DecidableEq, Repr

namespace Either

/-- Embedding of the property `is_right`. -/
def is_right : Either ε α → Bool
  | .left _ => false
  | .right _ => true

/-- Embedding of the property `is_left`. -/
def is_left (r : Either ε α) : Bool :=
  !r.is_right

/-- Embedding of `Either.bind` (`src/core/either.py`, lines 32-39): on
`Right`, apply `f` and return its result as is; on `Left`, rebuild a
`Left` with the same stored error.  The callee `f` is a Python
computation that may itself raise, which the meta level renders as
`Except χ _`; the source has no `try/except` here, so a raised `χ`
passes through. -/
def bind (r : Either ε α) (f : α → Except χ (Either ε β)) :
    Except χ (Either ε β) :=
  match r with
  | .right a => f a
  | .left e => .ok (.left e)

/-- Embedding of `Either.map` (`src/core/either.py`, lines 41-51): on
`Right`, apply `f` inside `try/except`, turning a raised exception into
a `Left`; on `Left`, rebuild a `Left` with the same stored error. -/
def map (r : Either ε α) (f : α → Except ε β) : Either ε β :=
  match r with
  | .right a =>
    match f a with
    | .ok b => .right b
    | .error e => .left e
  | .left e => .left e

/-- Embedding of the static method `Either.pure`: build a `Right`. -/
def pure (a : α) : Either ε α :=
  .right a

end Either

/-- Embedding of `IO` from `src/core/io_monad.py` (renamed `Eff` to keep
clear of the Lean builtin): the wrapped zero-argument closure `_effect`
is a transformer of an explicit world state `σ` that either returns an
`α` or raises an `ε`, producing the next world state either way. -/
structure Eff (σ ε α : Type) where
  effect : σ → Except ε α × σ

namespace Eff

/-- Embedding of `IO.run` (`src/core/io_monad.py`, lines 26-33): invoke
the closure on the current world. -/
def run (e : Eff σ ε α) (s : σ) : Except ε α × σ :=
  e.effect s

/-- Embedding of `IO.map` (`src/core/io_monad.py`, lines 39-48): the new
closure runs the original closure, then applies `f` to the result; a
raise inside the original closure propagates before `f` is reached. -/
def map (e : Eff σ ε α) (f : α → β) : Eff σ ε β :=
  ⟨fun s =>
    match e.effect s with
    | (.ok a, s₁) => (.ok (f a), s₁)
    | (.error x, s₁) => (.error x, s₁)⟩

/-- Embedding of `IO.bind` (`src/core/io_monad.py`, lines 50-61): the new
closure runs the original closure, feeds the result to `f` to obtain the
next effect, and runs that one on the world left by the first. -/
def bind (e : Eff σ ε α) (f : α → Eff σ ε β) : Eff σ ε β :=
  ⟨fun s =>
    match e.effect s with
    | (.ok a, s₁) => (f a).effect s₁
    | (.error x, s₁) => (.error x, s₁)⟩

/-- Embedding of the static method `IO.pure` (`src/core/io_monad.py`,
lines 67-70): a closure that returns the value and touches nothing. -/
def pure (a : α) : Eff σ ε α :=
  ⟨fun s => (.ok a, s)⟩

/-- Embedding of `IO.attempt` (`src/core/io_monad.py`, lines 72-87): run
the closure inside `try/except`; a normal value becomes `Either.right`,
a raised exception becomes `Either.left`, and the resulting effect never
raises. -/
def attempt (e : Eff σ ε α) : Eff σ ε (Either ε α) :=
  ⟨fun s =>
    match e.effect s with
    | (.ok a, s₁) => (.ok (.right a), s₁)
    | (.error x, s₁) => (.ok (.left x), s₁)⟩

/-- Embedding of the attempt loop inside `IO.retry`
(`src/core/io_monad.py`, lines 107-116).  `n` is the number of
iterations `range(max_attempts)` still has to run.  With `n = 0` the
`for` body never executes and `raise last_exception` re-raises the
`None` placeholder, which in Python raises a `TypeError`; the model
renders that outcome as the error `Option.none`, and a closure
exception `e` as `Option.some e`.  Inside the loop, a raising attempt
with `attempt == max_attempts - 1` (here: no iteration left after this
one) re-raises `e`; otherwise the loop moves to the next attempt. -/
def retryLoop (eff : σ → Except ε α × σ) : Nat → σ → Except (Option ε) α × σ
  | 0, s => (.error none, s)
  | n + 1, s =>
    match eff s with
    | (.ok a, s₁) => (.ok a, s₁)
    | (.error x, s₁) =>
      if n = 0 then (.error (some x), s₁)
      else retryLoop eff n s₁

/-- Embedding of `IO.retry` (`src/core/io_monad.py`, lines 102-118): the
new closure runs the original closure up to `max_attempts` times.
`range(max_attempts)` on a Python `int` makes `max (max_attempts, 0)`
iterations, hence `Int.toNat`. -/
def retry (e : Eff σ ε α) (max_attempts : Int) : Eff σ (Option ε) α :=
  ⟨fun s => retryLoop e.effect max_attempts.toNat s⟩

end Eff

/-- Instrumented closure over the world `σ := Nat` used to count
invocations: on its `n`-th call (the counter starts at the initial
world value) the closure behaves as `b n` — returns the value or raises
the exception prescribed by `b` — and bumps the counter. -/
def mkClosure (b : Nat → Except ε α) : Eff Nat ε α :=
  ⟨fun n => (b n, n + 1)⟩

/-- Embedding of `Stream` from `src/core/stream.py` restricted to finite
sources: the stored factory `_source` produces, on every request, a
fresh iterator over the same logical sequence, and a finite iterator is
fully described by the list of elements it yields, which is what the
model stores. -/
structure Stream (α : Type) where
  source : List α

namespace Stream

/-- Embedding of `Stream.to_list` (`src/core/stream.py`, lines 172-174):
materialize the elements the source yields. -/
def to_list (s : Stream α) : List α :=
  s.source

/-- Embedding of the static method `Stream.pure`
(`src/core/stream.py`, lines 54-57): a one-element stream. -/
def pure (a : α) : Stream α :=
  ⟨[a]⟩

/-- Embedding of the static method `Stream.of`
(`src/core/stream.py`, lines 59-62): a stream over the given values. -/
def of (values : List α) : Stream α :=
  ⟨values⟩

/-- Embedding of `Stream.map` (`src/core/stream.py`, lines 32-38): the
builtin `map(f, source)` applies `f` to each yielded element. -/
def map (s : Stream α) (f : α → β) : Stream β :=
  ⟨s.source.map f⟩

/-- Embedding of `Stream.bind` (`src/core/stream.py`, lines 40-48): the
generator iterates the source and, per element, iterates the stream
`f item` yields, emitting its elements — a flat map in outer-then-inner
order. -/
def bind (s : Stream α) (f : α → Stream β) : Stream β :=
  ⟨s.source.flatMap (fun item => (f item).source)⟩

/-- Embedding of the generator inside `Stream.distinct`
(`src/core/stream.py`, lines 135-140): walk the source with the set
`seen` of already-yielded elements, yielding an element only when it is
not in `seen` and adding it then.  The Python `set` is modelled by the
list of inserted elements with equality membership. -/
def distinctAux [DecidableEq α] (seen : List α) : List α → List α
  | [] => []
  | item :: rest =>
    if item ∈ seen then distinctAux seen rest
    else item :: distinctAux (item :: seen) rest

/-- Embedding of `Stream.distinct` (`src/core/stream.py`, lines
132-142): run the deduplicating generator with an initially empty
`seen` set. -/
def distinct [DecidableEq α] (s : Stream α) : Stream α :=
  ⟨distinctAux [] s.source⟩

/-- Embedding of the loop inside `Stream.find`
(`src/core/stream.py`, lines 187-190): return `Either.right` of the
first element satisfying the predicate, else
`Either.left "No element found"`. -/
def findAux (predicate : α → Bool) : List α → Either String α
  | [] => .left "No element found"
  | item :: rest =>
    if predicate item then .right item else findAux predicate rest

/-- Embedding of `Stream.find` (`src/core/stream.py`, lines 185-190). -/
def find (s : Stream α) (predicate : α → Bool) : Either String α :=
  findAux predicate s.source

end Stream

/-- General iterator model for the unbounded-stream claim: a Python
iterator is a state machine whose `step` yields the next element and
the successor state, or signals `StopIteration` with `none`. -/
structure Iter (σ α : Type) where
  state : σ
  step : σ → Option (α × σ)

namespace Iter

/-- Embedding of `itertools.count(start, 1)`, the source behind
`Stream.range(start)` with no `stop` (`src/core/stream.py`, line 73):
yields `start`, `start + 1`, ... without end. -/
def countFrom (start : Int) : Iter Int Int :=
  ⟨start, fun n => some (n, n + 1)⟩

/-- Embedding of the source built by `Stream.map`
(`src/core/stream.py`, lines 35-37), `map(f, source)`, instrumented
with an invocation counter for `f`: each pull applies `f` to the next
underlying element and bumps the counter.  Building the iterator value
itself applies `f` zero times, so the counter component of the initial
state is `0`. -/
def mapCount (f : α → β) (it : Iter σ α) : Iter (σ × Nat) β :=
  ⟨(it.state, 0), fun p =>
    match it.step p.1 with
    | none => none
    | some (a, s₁) => some (f a, (s₁, p.2 + 1))⟩

/-- Embedding of `itertools.islice(source, n)`, the source built by
`Stream.take` (`src/core/stream.py`, lines 100-102): yield at most `n`
elements of the underlying iterator, pulling it only while the budget
is positive. -/
def islice (it : Iter σ α) (n : Nat) : Iter (σ × Nat) α :=
  ⟨(it.state, n), fun p =>
    if p.2 = 0 then none
    else
      match it.step p.1 with
      | none => none
      | some (a, s₁) => some (a, (s₁, p.2 - 1))⟩

/-- Embedding of `list(iterator)` on the iterator model: pull until
exhaustion.  A pull on a Python iterator need not terminate, so the
traversal carries fuel; `none` means the fuel ran out before the
iterator was exhausted. -/
def toListAux (step : σ → Option (α × σ)) : Nat → σ → Option (List α × σ)
  | 0, _ => none
  | fuel + 1, s =>
    match step s with
    | none => some ([], s)
    | some (a, s₁) =>
      match toListAux step fuel s₁ with
      | none => none
      | some (l, s₂) => some (a :: l, s₂)

/-- Embedding of `Stream.to_list` (`src/core/stream.py`, lines 172-174)
on the iterator model, with fuel. -/
def to_list (it : Iter σ α) (fuel : Nat) : Option (List α × σ) :=
  toListAux it.step fuel it.state

end Iter

/-- Embedding of the `HttpMethod` enumeration
(`src/core/http_stream.py`, lines 14-20). -/
inductive HttpMethod where
  | GET
  | POST
  | PUT
  | DELETE
  | PATCH
deriving DecidableEq, Repr

/-- Embedding of the dataclass `HttpRequest`
(`src/core/http_stream.py`, lines 23-42); the optional dictionaries are
association lists. -/
structure HttpRequest where
  url : String
  method : HttpMethod
  headers : Option (List (String × String))
  params : Option (List (String × String))
  body : Option String
  timeout : Int
deriving DecidableEq, Repr

/-- Python dataclass instances live on the heap and are mutable in
place; the heap is the store of `HttpRequest` objects, addressed by
`Nat` references (list positions). -/
abbrev Heap := List HttpRequest

/-- Embedding of `(request.headers or \x7b\x7d).copy()` followed by
`.update(headers)` (`src/core/http_stream.py`, lines 259-260): every
key of the update wins over an old entry with the same key; the model
keeps the surviving old entries followed by the update entries, which
fixes a key order but the same key-value mapping as the Python dict. -/
def dictUpdate (old new : List (String × String)) : List (String × String) :=
  old.filter (fun p => (new.find? (fun q => q.1 == p.1)).isNone) ++ new

/-- Embedding of the closure `add_headers` inside
`HttpStream.with_headers` (`src/core/http_stream.py`, lines 258-262):
it builds the merged header dict, assigns it to `request.headers` —
mutating the request object on the heap in place — and returns the very
same request (the same reference, not a new object). -/
def add_headers (headers : List (String × String)) (r : Nat) (heap : Heap) :
    Nat × Heap :=
  match heap.get? r with
  | none => (r, heap)
  | some req =>
    let new_headers := dictUpdate (req.headers.getD []) headers
    (r, heap.set r { req with headers := some new_headers })

/-- Threading of the heap through the per-element closure calls when a
mapped request stream is traversed: the lazy `map` applies `f` to each
element at the moment it is pulled, in order. -/
def mapHeap (f : Nat → Heap → Nat × Heap) : List Nat → Heap → List Nat × Heap
  | [], heap => ([], heap)
  | r :: rest, heap =>
    let p := f r heap
    let q := mapHeap f rest p.2
    (p.1 :: q.1, q.2)

/-- Embedding of `HttpStream` (`src/core/http_stream.py`, lines
157-275): the wrapped request stream is a factory that, when traversed,
yields request references and may touch the heap while doing so. -/
structure HttpStream where
  source : Heap → List Nat × Heap

namespace HttpStream

/-- Embedding of `HttpStream.map_request`
(`src/core/http_stream.py`, lines 238-240): wrap the lazily mapped
request stream; nothing runs until the result is traversed. -/
def map_request (s : HttpStream) (f : Nat → Heap → Nat × Heap) : HttpStream :=
  ⟨fun heap =>
    let res := s.source heap
    mapHeap f res.1 res.2⟩

/-- Embedding of `HttpStream.with_headers`
(`src/core/http_stream.py`, lines 255-264): map the `add_headers`
closure over the requests. -/
def with_headers (s : HttpStream) (headers : List (String × String)) :
    HttpStream :=
  s.map_request (add_headers headers)

/-- A plain request stream over already-allocated requests, as built by
`HttpStream.from_urls` or `HttpStream.single`: traversal yields the
stored references and leaves the heap alone. -/
def from_refs (refs : List Nat) : HttpStream :=
  ⟨fun heap => (refs, heap)⟩

end HttpStream

/-- Embedding of `HttpStream.execute_parallel`
(`src/core/http_stream.py`, lines 207-236): one future is submitted per
request, `es` lists the futures results in submission order,
`max_workers` sets the pool size — it influences only which completion
orders can occur, so the model quantifies over every enumeration
`order` of the submitted futures, a superset of the realizable
completion orders — and `as_completed` yields each future exactly once,
in completion order, appending `future.result()` to the output list. -/
def execute_parallel (es : List α) (max_workers : Nat)
    (order : List (Fin es.length)) : List α :=
  let _ := max_workers
  order.map es.get

/-- C1: left identity holds for all three concrete types — for every
value `a` and function `f` into the same monadic type,
`pure(a).bind(f)` materializes to the same result as `f(a)`: for the
deferred effect under `run` on any world, for `Either` directly, and
for the stream under `to_list`. -/
theorem pure_bind_left_identity :
    (∀ (σ ε α β : Type) (a : α) (f : α → Eff σ ε β) (s : σ),
        ((Eff.pure a).bind f).run s = (f a).run s) ∧
    (∀ (ε χ α β : Type) (a : α) (f : α → Except χ (Either ε β)),
        (Either.pure a : Either ε α).bind f = f a) ∧
    (∀ (α β : Type) (a : α) (f : α → Stream β),
        ((Stream.pure a).bind f).to_list = (f a).to_list) := by
  refine ⟨fun σ ε α β a f s => rfl, fun ε χ α β a f => rfl, fun α β a f => ?_⟩
  simp [Stream.pure, Stream.bind, Stream.to_list]

/-- Witness for C1 at concrete inputs for the three types. -/
theorem pure_bind_left_identity_witness :
    (((Eff.pure 4 : Eff Nat Nat Nat).bind (fun n => Eff.pure (n + 1))).run 0
      = (Eff.pure 5 : Eff Nat Nat Nat).run 0) ∧
    (((Either.pure 4 : Either Nat Nat).bind
        (fun n => (Except.ok (Either.pure (n + 1))
          : Except Nat (Either Nat Nat))))
      = Except.ok (Either.pure 5)) ∧
    (((Stream.pure 4).bind (fun n => Stream.of [n, n + 1])).to_list
      = (Stream.of ([4, 5] : List Nat)).to_list) :=
  ⟨pure_bind_left_identity.1 Nat Nat Nat Nat 4 (fun n => Eff.pure (n + 1)) 0,
   pure_bind_left_identity.2.1 Nat Nat Nat Nat 4
     (fun n => Except.ok (Either.pure (n + 1))),
   pure_bind_left_identity.2.2 Nat Nat 4 (fun n => Stream.of [n, n + 1])⟩

/-- C4: the exception policy of `Either` is asymmetric between `map`
and `bind` — `map` on a success whose transformer raises stores the
raised error in a failure and never propagates it, and on a failure
returns a failure with the same error value; `bind` on a success
returns the result of `f` directly without wrapping and propagates
anything `f` raises, and on a failure short-circuits to the same
failure for every `f`, so `f` is never consulted. -/
theorem either_map_bind_exception_policy {ε α β χ : Type} :
    (∀ (a : α) (f : α → Except ε β) (x : ε), f a = .error x →
        (Either.right a : Either ε α).map f = .left x) ∧
    (∀ (a : α) (f : α → Except ε β) (b : β), f a = .ok b →
        (Either.right a : Either ε α).map f = .right b) ∧
    (∀ (e : ε) (f : α → Except ε β),
        (Either.left e : Either ε α).map f = .left e) ∧
    (∀ (a : α) (f : α → Except χ (Either ε β)),
        (Either.right a : Either ε α).bind f = f a) ∧
    (∀ (e : ε) (f : α → Except χ (Either ε β)),
        (Either.left e : Either ε α).bind f = .ok (.left e)) := by
  refine ⟨fun a f x h => ?_, fun a f b h => ?_, fun e f => rfl,
          fun a f => rfl, fun e f => rfl⟩
  · simp [Either.map, h]
  · simp [Either.map, h]

/-- Witness for C4 at concrete inputs: a transformer raising `7` on the
success value `1` yields the failure `7`, a returning transformer maps
the value, failures pass through `map` and `bind`, and `bind` hands the
callee result through untouched. -/
theorem either_map_bind_exception_policy_witness :
    ((Either.right 1 : Either Nat Nat).map
        (fun _ => (Except.error 7 : Except Nat Nat)) = .left 7) ∧
    ((Either.right 1 : Either Nat Nat).map
        (fun n => (Except.ok (n + 1) : Except Nat Nat)) = .right 2) ∧
    ((Either.left 5 : Either Nat Nat).map
        (fun n => (Except.ok (n + 1) : Except Nat Nat)) = .left 5) ∧
    ((Either.right 1 : Either Nat Nat).bind
        (fun _ => (Except.error 9 : Except Nat (Either Nat Nat)))
      = Except.error 9) ∧
    ((Either.left 5 : Either Nat Nat).bind
        (fun _ => (Except.error 9 : Except Nat (Either Nat Nat)))
      = .ok (.left 5)) := by
  obtain ⟨h1, h2, h3, h4, h5⟩ :=
    @either_map_bind_exception_policy Nat Nat Nat Nat
  exact ⟨h1 1 _ 7 rfl, h2 1 _ 2 rfl, h3 5 _, h4 1 _, h5 5 _⟩

/-- C5: for every deferred effect, `attempt().run()` never raises — if
the closure raises `x` the run yields the value `Either.left x`, and if
the closure returns `v` it yields `Either.right v`, with the same world
effects as the bare run either way. -/
theorem attempt_never_raises {σ ε α : Type} (e : Eff σ ε α) (s : σ) :
    (e.attempt).run s
      = (match e.run s with
         | (.ok v, s₁) => (.ok (.right v), s₁)
         | (.error x, s₁) => (.ok (.left x), s₁)) := by
  rcases h : e.effect s with ⟨r, s₁⟩
  cases r with
  | ok v => simp [Eff.attempt, Eff.run, h]
  | error x => simp [Eff.attempt, Eff.run, h]

/-- Witness for C5: a closure raising `3` on its single invocation is
turned by `attempt` into the value `Either.left 3`, with the invocation
recorded. -/
theorem attempt_never_raises_witness :
    ((mkClosure (fun _ => (Except.error 3 : Except Nat Nat))).attempt).run 0
      = (.ok (.left 3), 1) :=
  attempt_never_raises
    (mkClosure (fun _ => (Except.error 3 : Except Nat Nat))) 0

/-- C10: for every closure and every `max_attempts ≤ 0`,
`retry(max_attempts).run()` never invokes the closure (the invocation
counter is left at its starting value) and raises the `TypeError`
coming from re-raising the `None` placeholder after the empty attempt
loop (modelled by the error `Option.none`), rather than returning a
value or raising a closure error. -/
theorem retry_nonpositive {ε α : Type} (b : Nat → Except ε α)
    (max_attempts : Int) (h : max_attempts ≤ 0) (c : Nat) :
    ((mkClosure b).retry max_attempts).run c = (.error none, c) := by
  have h0 : max_attempts.toNat = 0 := Int.toNat_of_nonpos h
  simp [Eff.retry, Eff.run, h0, Eff.retryLoop]

/-- Witness for C10: retrying an always-succeeding closure with
`max_attempts = -2` still raises the `TypeError` marker and performs
zero invocations. -/
theorem retry_nonpositive_witness :
    ((mkClosure (fun n => (Except.ok n : Except Nat Nat))).retry (-2)).run 0
      = (.error none, 0) :=
  retry_nonpositive (fun n => (Except.ok n : Except Nat Nat)) (-2)
    (by decide) 0

/-- Helper: when the instrumented closure raises on its first `k`
invocations after counter value `c` and returns `v` on the next one,
and at least `k + 1` attempts remain, the retry loop returns `v` having
moved the counter to `c + k + 1`. -/
theorem retryLoop_success {ε α : Type} (b : Nat → Except ε α) (v : α) :
    ∀ (k n c : Nat), k < n →
      (∀ j, j < k → ∃ x, b (c + j) = .error x) →
      b (c + k) = .ok v →
      Eff.retryLoop (mkClosure b).effect n c = (.ok v, c + k + 1) := by
  intro k
  induction k with
  | zero =>
    intro n c hk _ hb
    obtain ⟨m, rfl⟩ : ∃ m, n = m + 1 := ⟨n - 1, by omega⟩
    simp only [Nat.add_zero] at hb
    simp [Eff.retryLoop, mkClosure, hb]
  | succ k ih =>
    intro n c hk hfail hb
    obtain ⟨m, rfl⟩ : ∃ m, n = m + 1 := ⟨n - 1, by omega⟩
    obtain ⟨x, hx⟩ := hfail 0 (by omega)
    simp only [Nat.add_zero] at hx
    have hm : ¬ m = 0 := by omega
    have step := ih m (c + 1) (by omega)
      (fun j hj => by
        obtain ⟨y, hy⟩ := hfail (j + 1) (by omega)
        refine ⟨y, ?_⟩
        have e1 : c + 1 + j = c + (j + 1) := by omega
        rw [e1]; exact hy)
      (by
        have e1 : c + 1 + k = c + (k + 1) := by omega
        rw [e1]; exact hb)
    have e2 : c + 1 + k + 1 = c + (k + 1) + 1 := by omega
    rw [e2] at step
    simp [Eff.retryLoop, mkClosure, hx, hm]
    exact step

/-- Helper: when the instrumented closure raises on every one of the
`n ≥ 1` remaining attempts after counter value `c`, the retry loop
re-raises the error of the final attempt and the counter ends at
`c + n`. -/
theorem retryLoop_fail {ε α : Type} (b : Nat → Except ε α) (e : Nat → ε) :
    ∀ (n c : Nat), 1 ≤ n →
      (∀ j, j < n → b (c + j) = .error (e (c + j))) →
      Eff.retryLoop (mkClosure b).effect n c
        = (.error (some (e (c + n - 1))), c + n) := by
  intro n
  induction n with
  | zero => intro c h1 _; omega
  | succ n ih =>
    intro c _ hfail
    have hx := hfail 0 (by omega)
    simp only [Nat.add_zero] at hx
    by_cases hn : n = 0
    · subst hn
      simp [Eff.retryLoop, mkClosure, hx]
    · have step := ih (c + 1) (by omega)
        (fun j hj => by
          have hy := hfail (j + 1) (by omega)
          have e1 : c + 1 + j = c + (j + 1) := by omega
          rw [e1]; exact hy)
      have e2 : c + 1 + n - 1 = c + n := by omega
      have e3 : c + 1 + n = c + (n + 1) := by omega
      rw [e2, e3] at step
      simp [Eff.retryLoop, mkClosure, hx, hn]
      exact step

/-- C3: for every closure behaviour and every `max_attempts ≥ 1`,
`retry(max_attempts).run()` invokes the closure sequentially until the
first non-raising attempt and returns that value — a first success on
attempt index `k` (zero-based, `k < max_attempts`) leaves exactly
`k + 1` invocations on the counter; and when the closure raises on
every one of the `max_attempts` attempts, the closure is invoked
exactly `max_attempts` times and the error of the final attempt is the
one propagated to the caller. -/
theorem retry_spec {ε α : Type} :
    (∀ (b : Nat → Except ε α) (max_attempts : Int) (v : α) (k : Nat),
        1 ≤ max_attempts → k < max_attempts.toNat →
        (∀ j, j < k → ∃ x, b j = .error x) → b k = .ok v →
        ((mkClosure b).retry max_attempts).run 0 = (.ok v, k + 1)) ∧
    (∀ (b : Nat → Except ε α) (max_attempts : Int) (e : Nat → ε),
        1 ≤ max_attempts →
        (∀ j, j < max_attempts.toNat → b j = .error (e j)) →
        ((mkClosure b).retry max_attempts).run 0
          = (.error (some (e (max_attempts.toNat - 1))),
             max_attempts.toNat)) := by
  constructor
  · intro b max_attempts v k _ hk hfail hb
    have h := retryLoop_success b v k max_attempts.toNat 0 hk
      (fun j hj => by simpa using hfail j hj) (by simpa using hb)
    simpa [Eff.retry, Eff.run] using h
  · intro b max_attempts e hpos hfail
    have h1 : 1 ≤ max_attempts.toNat := by omega
    have h := retryLoop_fail b e max_attempts.toNat 0 h1
      (fun j hj => by simpa using hfail j hj)
    simpa [Eff.retry, Eff.run] using h

/-- Witness for C3: with `retry(3)`, a closure failing on its first two
invocations and succeeding on the third returns the success value after
exactly three invocations, and a closure failing on all three
invocations ends with exactly three invocations and the error of the
final attempt. -/
theorem retry_spec_witness :
    (((mkClosure (fun n => if n < 2 then Except.error n
        else (Except.ok (n * 10) : Except Nat Nat))).retry 3).run 0
      = (.ok 20, 3)) ∧
    (((mkClosure (fun n => (Except.error n : Except Nat Nat))).retry 3).run 0
      = (.error (some 2), 3)) := by
  constructor
  · exact retry_spec.1 _ 3 20 2 (by decide) (by decide)
      (fun j hj => ⟨j, by simp [hj]⟩) rfl
  · exact retry_spec.2 _ 3 (fun j => j) (by decide) (fun j _ => rfl)

/-- Helper: a fuelled traversal that finishes keeps its outcome under
any larger fuel. -/
theorem toListAux_mono {σ α : Type} (step : σ → Option (α × σ)) :
    ∀ (m : Nat) (s : σ) (r : List α × σ) (n : Nat), m ≤ n →
      Iter.toListAux step m s = some r →
      Iter.toListAux step n s = some r := by
  intro m
  induction m with
  | zero =>
    intro s r n _ h
    simp [Iter.toListAux] at h
  | succ m ih =>
    intro s r n hmn h
    obtain ⟨k, rfl⟩ : ∃ k, n = k + 1 := ⟨n - 1, by omega⟩
    rcases hs : step s with _ | ⟨a, s₁⟩
    · simp only [Iter.toListAux, hs] at h ⊢
      exact h
    · simp only [Iter.toListAux, hs] at h ⊢
      rcases ht : Iter.toListAux step m s₁ with _ | ⟨l, s₂⟩
      · rw [ht] at h
        exact absurd h (by simp)
      · rw [ht] at h
        rw [ih s₁ (l, s₂) k (by omega) ht]
        exact h

/-- C2: the pipeline `Stream.range(0).map(f).take(5)` invokes `f`
zero times at construction — the invocation counter in the initial
iterator state is `0`, so no call to `f` happens before the terminal
operation — and `to_list` then yields exactly `[f 0, ..., f 4]` with
the counter at exactly `5` invocations, for any sufficient fuel, even
though the underlying `range(0)` never ends. -/
theorem range_map_take_laziness (β : Type) (f : Int → β) (fuel : Nat)
    (hfuel : 6 ≤ fuel) :
    ((((Iter.countFrom 0).mapCount f).islice 5).state.1.2 = 0) ∧
    ((((Iter.countFrom 0).mapCount f).islice 5).to_list fuel
      = some ([f 0, f 1, f 2, f 3, f 4], ((5, 5), 0))) := by
  constructor
  · rfl
  · have h6 : (((Iter.countFrom 0).mapCount f).islice 5).to_list 6
        = some ([f 0, f 1, f 2, f 3, f 4], ((5, 5), 0)) := by rfl
    exact toListAux_mono _ 6 _ _ fuel hfuel h6

/-- Witness for C2 with the doubling function and fuel `6`: the
constructed pipeline has counter `0` and materializes to the first five
doubled naturals with counter `5`. -/
theorem range_map_take_laziness_witness :
    ((((Iter.countFrom 0).mapCount (fun n => n * 2)).islice 5).state.1.2
        = 0) ∧
    ((((Iter.countFrom 0).mapCount (fun n => n * 2)).islice 5).to_list 6
      = some ([0, 2, 4, 6, 8], ((5, 5), 0))) := by
  have h := range_map_take_laziness Int (fun n => n * 2) 6 (by decide)
  refine ⟨h.1, ?_⟩
  rw [h.2]
  norm_num

/-- Modelled from the words of the spec, for comparison with the code:
the subsequence keeping exactly the first occurrence of each distinct
element of the traversal, in original order. -/
def firstOccurrences {α : Type} [DecidableEq α] : List α → List α
  | [] => []
  | x :: xs => x :: firstOccurrences (xs.filter (fun y => decide (y ≠ x)))
termination_by l => l.length
decreasing_by
  simp only [List.length_cons]
  exact Nat.lt_succ_of_le (List.length_filter_le _ _)

/-- Helper: unfolding equation of `firstOccurrences` on the empty
list. -/
theorem firstOccurrences_nil {α : Type} [DecidableEq α] :
    firstOccurrences ([] : List α) = [] := by
  rw [firstOccurrences.eq_def]

/-- Helper: unfolding equation of `firstOccurrences` on a cons. -/
theorem firstOccurrences_cons {α : Type} [DecidableEq α] (x : α)
    (xs : List α) :
    firstOccurrences (x :: xs)
      = x :: firstOccurrences (xs.filter (fun y => decide (y ≠ x))) := by
  rw [firstOccurrences.eq_def]

/-- Helper: the deduplicating generator with running `seen` set
computes the first-occurrence subsequence of the elements not already
seen. -/
theorem distinctAux_eq_firstOccurrences {α : Type} [DecidableEq α] :
    ∀ (l : List α) (seen : List α),
      Stream.distinctAux seen l
        = firstOccurrences (l.filter (fun y => decide (y ∉ seen))) := by
  intro l
  induction l with
  | nil => intro seen; simp [Stream.distinctAux, firstOccurrences_nil]
  | cons x xs ih =>
    intro seen
    by_cases hx : x ∈ seen
    · simp only [Stream.distinctAux, if_pos hx, List.filter_cons]
      simp [hx, ih]
    · simp only [Stream.distinctAux, if_neg hx, List.filter_cons]
      rw [if_pos (by simp [hx] : decide (x ∉ seen) = true)]
      rw [firstOccurrences_cons, ih (x :: seen), List.filter_filter]
      have hpt : ∀ y ∈ xs,
          (decide (y ≠ x) && decide (y ∉ seen)) = decide (y ∉ x :: seen) := by
        intro y _
        by_cases h1 : y = x
        · subst h1; simp
        · by_cases h2 : y ∈ seen <;> simp [h1, h2, List.mem_cons]
      rw [List.filter_congr hpt]

/-- C6: `distinct` deduplicates across the entire traversal and keeps
first-occurrence order — for every finite stream the materialized
result is exactly the first occurrence of each distinct element in
original order (the spec-side `firstOccurrences`), and in particular
`Stream.of(1,2,2,3,3,3).distinct().to_list() == [1,2,3]`. -/
theorem distinct_spec {α : Type} [DecidableEq α] (l : List α) :
    (((Stream.of l).distinct).to_list = firstOccurrences l) ∧
    (((Stream.of ([1, 2, 2, 3, 3, 3] : List Nat)).distinct).to_list
      = [1, 2, 3]) := by
  constructor
  · have h := distinctAux_eq_firstOccurrences l ([] : List α)
    simp only [Stream.of, Stream.distinct, Stream.to_list]
    rw [h]
    congr 1
    simp
  · decide

/-- Witness for C6 at the concrete stream of the claim. -/
theorem distinct_spec_witness :
    ((Stream.of ([1, 2, 2, 3, 3, 3] : List Nat)).distinct).to_list
      = [1, 2, 3] :=
  (distinct_spec ([1, 2, 2, 3, 3, 3] : List Nat)).2

/-- C7 counterexample: the code stores the failure message
"No element found" with a capital N, so already on a singleton stream
with a never-true predicate `find` does not return the payload
"no element found" stated by the claim. -/
theorem find_message_counterexample :
    (Stream.of ([1] : List Nat)).find (fun _ => false)
      ≠ Either.left "no element found" := by
  decide

/-- Helper: the `find` loop returns the element at the first index
whose predicate test succeeds. -/
theorem findAux_first {α : Type} (p : α → Bool) :
    ∀ (l : List α) (i : Nat) (hi : i < l.length),
      p (l.get ⟨i, hi⟩) = true →
      (∀ y ∈ l.take i, p y = false) →
      Stream.findAux p l = .right (l.get ⟨i, hi⟩) := by
  intro l
  induction l with
  | nil => intro i hi; simp at hi
  | cons x xs ih =>
    intro i hi hp hprev
    cases i with
    | zero =>
      simp only [List.get] at hp
      simp [Stream.findAux, hp]
    | succ i =>
      have hx : p x = false := hprev x (by simp)
      simp only [Stream.findAux, hx, Bool.false_eq_true, if_false,
        List.get]
      exact ih i (by simpa using hi) (by simpa using hp)
        (fun y hy => hprev y (by simp [hy]))

/-- Helper: the `find` loop falls through to the failure message when
no element passes the predicate. -/
theorem findAux_none {α : Type} (p : α → Bool) :
    ∀ l : List α, (∀ x ∈ l, p x = false) →
      Stream.findAux p l = .left "No element found" := by
  intro l
  induction l with
  | nil => intro _; rfl
  | cons x xs ih =>
    intro h
    have hx : p x = false := h x (by simp)
    simp only [Stream.findAux, hx, Bool.false_eq_true, if_false]
    exact ih (fun y hy => h y (by simp [hy]))

/-- C7 (amended): for every stream and predicate, `find` returns the
success of the first element in traversal order satisfying the
predicate, and returns the failure "No element found" — the code
capitalizes the message where the claim wrote "no element found" —
when no element satisfies it, including on the empty stream. -/
theorem find_spec {α : Type} (l : List α) (p : α → Bool) :
    (∀ (i : Nat) (hi : i < l.length),
        p (l.get ⟨i, hi⟩) = true →
        (∀ y ∈ l.take i, p y = false) →
        (Stream.of l).find p = .right (l.get ⟨i, hi⟩)) ∧
    ((∀ x ∈ l, p x = false) →
        (Stream.of l).find p = .left "No element found") := by
  constructor
  · intro i hi hp hprev
    exact findAux_first p l i hi hp hprev
  · intro h
    exact findAux_none p l h

/-- Witness for C7: on the stream `(4, 5)` the first element at least
`5` is found as a success, and a never-true predicate yields the
failure with the capitalized message. -/
theorem find_spec_witness :
    ((Stream.of ([4, 5] : List Nat)).find (fun x => decide (5 ≤ x))
      = .right 5) ∧
    ((Stream.of ([4, 5] : List Nat)).find (fun _ => false)
      = .left "No element found") := by
  constructor
  · exact (find_spec [4, 5] (fun x => decide (5 ≤ x))).1 1 (by decide)
      (by decide) (by decide)
  · exact (find_spec [4, 5] (fun _ => false)).2 (by decide)

/-- C8: evaluating the code at a concrete input — one request without
headers, reachable as reference 0 from the original stream — shows that
traversing the stream returned by `with_headers` hands back the very
same reference, not a new instance, and leaves the heap with the
request at reference 0 mutated: the headers field of the request value
reachable from the original stream has changed, contradicting the
claimed immutability. -/
theorem with_headers_mutates_input :
    ((((HttpStream.from_refs [0]).with_headers [("A", "B")]).source
        [⟨"u", .GET, none, none, none, 30⟩])
      = ([0], [⟨"u", .GET, some [("A", "B")], none, none, 30⟩])) ∧
    (([⟨"u", .GET, some [("A", "B")], none, none, 30⟩] : Heap)
      ≠ [⟨"u", .GET, none, none, none, 30⟩]) := by
  constructor
  · rfl
  · decide

/-- C9: bounded-parallel execution of `N` submitted effects with any
worker bound at least `1` collects, for every completion order of the
futures, a list of exactly `N` results that is a permutation of the
per-effect results — one result per submitted effect, none dropped,
none duplicated. -/
theorem execute_parallel_complete {α : Type} (es : List α)
    (max_workers : Nat) (_hw : 1 ≤ max_workers)
    (order : List (Fin es.length))
    (horder : order.Perm (List.finRange es.length)) :
    ((execute_parallel es max_workers order).length = es.length) ∧
    ((execute_parallel es max_workers order).Perm es) := by
  have hperm : (execute_parallel es max_workers order).Perm
      ((List.finRange es.length).map es.get) := horder.map es.get
  rw [List.finRange_map_get] at hperm
  exact ⟨hperm.length_eq, hperm⟩

/-- Witness for C9: three effects with results `10, 20, 30`, a pool of
two workers and the completion order third-first-second still collect
three results forming a permutation of the submitted results. -/
theorem execute_parallel_complete_witness :
    ((execute_parallel ([10, 20, 30] : List Nat) 2
        [⟨2, by decide⟩, ⟨0, by decide⟩, ⟨1, by decide⟩]).length = 3) ∧
    ((execute_parallel ([10, 20, 30] : List Nat) 2
        [⟨2, by decide⟩, ⟨0, by decide⟩, ⟨1, by decide⟩]).Perm
      [10, 20, 30]) :=
  execute_parallel_complete [10, 20, 30] 2 (by decide)
    [⟨2, by decide⟩, ⟨0, by decide⟩, ⟨1, by decide⟩] (by decide)

end SF
